import Mathlib

set_option maxHeartbeats 1000000
set_option maxRecDepth 100000

/-!
Shallow embedding of `src/js/scrollable-table.js` (datacomb): a virtual-scrolling
table that keeps a bounded pool of reusable DOM row nodes ("surfaces") and
reassigns them to data rows as the viewport scrolls.

Modelling conventions:
* DOM nodes are identified by `Nat` ids; a row's `__node` field is `Option Nat`
  (`none` models JS `null`).
* Pixel positions (`__top`, `style.top`, scroll offsets) are rationals; the JS
  numeric division computing the viewport midpoint is exact rational division.
* lodash 3 `_.sortedIndex(array, value, '__top')` is the binary search
  `sortedIndexGo`; the JS midpoint `(lo + hi) >>> 1` is `(lo + hi) / 2` on `Nat`.
* JS `for`/`while` loops become structural recursions on an explicit fuel
  argument that equals the number of remaining iterations at every call site,
  so all definitions compute by kernel reduction.
* A thrown `TypeError` (property access on `undefined`/`null`, which the source
  can hit when the free-node scan runs past `rowsWithNodes`) is modelled by a
  `PassResult` with `err := true` carrying the state at the throw point; note
  that `isUpdating` is still `true` in that state, as in the source.
* Calls to the caller's `updateRow` callback and writes to a node's
  `style.top` are recorded in the `updates` and `posWrites` logs.
-/

namespace ScrollableTable

/-- One entry of `this.data`: the caller-owned payload plus the two fields the
component manages in place, `__top` (cumulative offset) and `__node`. -/
structure RowData (α : Type) where
  payload : α
  top : ℚ
  node : Option Nat
  deriving DecidableEq

/-- The mutable state of one `ScrollableTable` instance: `data`,
`rowsWithNodes` (indices of rows with active nodes), scroll bookkeeping,
the bottom extent-marker position, per-node `style.top` values
(`nodePos` is indexed by node id), and `childCount`, the number of DOM
children currently appended to the container `el` (the built row nodes plus
`bottomEl`; needed to model the clear loop of `reset`, line 58).
`lastMidNdx` and `isUpdating` start out absent/falsy in JS, modelled as
`none` / `false`. -/
structure TableState (α : Type) where
  data : List (RowData α)
  rowsWithNodes : List Nat
  yPosition : ℚ
  totalHeight : ℚ
  bottomTop : ℚ
  nodePos : List ℚ
  lastMidNdx : Option Nat
  isUpdating : Bool
  childCount : Nat
  deriving DecidableEq

/-- Construction options: `heightFn` (default constant 10), `availableNodes`
(default 100) and `visibleHeight` (default 400). -/
structure Config (α : Type) where
  heightFn : α → ℚ
  availableNodes : Nat
  visibleHeight : ℚ

/-- Result of one `updateVisibleRows` invocation: the state afterwards, the
log of `updateRow` callback invocations `(row index, node passed)`, the log of
`style.top` writes `(node id, value)`, the final value of the scan variable
`freeSearchNdx`, and whether the pass aborted with a thrown `TypeError`. -/
structure PassResult (α : Type) where
  state : TableState α
  updates : List (Nat × Option Nat)
  posWrites : List (Nat × ℚ)
  cursor : Nat
  err : Bool
  deriving DecidableEq

/-- `ScrollableTable.prototype.calculateHeights`: walks `data` in index order,
assigning `data[ndx].__top = totalHeight` then `totalHeight += heightFn(row)`.
Returns the list of assigned `__top` values together with the final
`totalHeight`; the second argument is the running accumulator (0 at the call
site, as in the source). -/
def calculateHeights {α : Type} (hf : α → ℚ) : List α → ℚ → List ℚ × ℚ
  | [], total => ([], total)
  | p :: ps, total =>
    let rest := calculateHeights hf ps (total + hf p)
    (total :: rest.1, rest.2)

/-- The row list rebuilt by `reset`: row `j + i` keeps payload `ps[i]`, gets
`__top = ts[i]`, and `__node` is node id `j + i` for the first `k` rows
(`k = nodesToBuild`), `null` for the rest.  Fresh nodes are given ids equal to
the row index they are first attached to. -/
def buildData {α : Type} : List α → List ℚ → Nat → Nat → List (RowData α)
  | p :: ps, t :: ts, k, i =>
    ⟨p, t, if i < k then some i else none⟩ :: buildData ps ts k (i + 1)
  | _, _, _, _ => []

/-- Line 58 of `reset`:
`while (this.el.firstChild) { this.el.remove(this.el.firstChild); }`.
`Element.remove()` takes no arguments: each call detaches the container
itself from its parent and ignores `firstChild`, so the container's child
list never changes.  The loop therefore exits immediately when the container
has no children and otherwise runs forever.  The argument is the container's
child count; the result is the child count after the loop (`0`), with the
non-terminating run modelled as `none`. -/
def clearChildren : Nat → Option Nat
  | 0 => some 0
  | _ + 1 => none

/-- `ScrollableTable.prototype.reset`: zero `yPosition`, recompute heights
(`setHeight` → `calculateHeights`), run the clear-children loop of line 58
(`clearChildren`; when the container already has children — as it always
does after a previous `reset`, which appends the built rows and `bottomEl` —
that loop never terminates, so the whole call is `none` and the mutations
made before the loop are never observable through a return), then clear
every `__node`, build `min(availableNodes, data.length)` fresh nodes
attached to rows `0..k-1` each positioned at its row's `__top`, rebuild
`rowsWithNodes = [0..k-1]`, append the fresh row nodes and the bottom extent
marker (child count `k + 1`) placed at `totalHeight`.  Returns the new state
and the number of `buildRow` invocations.  `lastMidNdx` and `isUpdating`
are not touched by the source's `reset`. -/
def reset {α : Type} (cfg : Config α) (st : TableState α) :
    Option (TableState α × Nat) :=
  let payloads := st.data.map RowData.payload
  let ht := calculateHeights cfg.heightFn payloads 0
  let k := min cfg.availableNodes payloads.length
  match clearChildren st.childCount with
  | none => none
  | some _ =>
    some ({ data := buildData payloads ht.1 k 0,
            rowsWithNodes := List.range k,
            yPosition := 0,
            totalHeight := ht.2,
            bottomTop := ht.2,
            nodePos := ht.1.take k,
            lastMidNdx := st.lastMidNdx,
            isUpdating := st.isUpdating,
            childCount := k + 1 }, k)

/-- The state a fresh instance starts from before the constructor's `reset`
call: caller data with no `__top`/`__node` metadata, empty `rowsWithNodes`,
and a container without children (the caller is expected to hand over an
empty `el`; with a non-empty one even the first `reset` would hang in the
clear loop). -/
def initState {α : Type} (payloads : List α) : TableState α :=
  { data := payloads.map (fun p => ⟨p, 0, none⟩),
    rowsWithNodes := [], yPosition := 0, totalHeight := 0, bottomTop := 0,
    nodePos := [], lastMidNdx := none, isUpdating := false, childCount := 0 }

/-- The `ScrollableTable` constructor (after option validation): initial state
followed by `reset`.  On the fresh state the container has no children, so
this first `reset` always returns; the `Option.getD` default is never
reached (see `construct_eq`). -/
def construct {α : Type} (cfg : Config α) (payloads : List α) : TableState α × Nat :=
  (reset cfg (initState payloads)).getD (initState payloads, 0)

/-- lodash 3 `_.sortedIndex` binary search: while `lo < hi`, probe
`m = (lo + hi) >>> 1` and if `tops[m] < v` continue in `(m, hi]`, else in
`[lo, m]`.  The fuel argument bounds the iteration count; it is `hi - lo` at
the top-level call, which never runs out since the span shrinks every step. -/
def sortedIndexGo (tops : List ℚ) (v : ℚ) : Nat → Nat → Nat → Nat
  | 0, lo, _hi => lo
  | fuel + 1, lo, hi =>
    if lo < hi then
      let m := (lo + hi) / 2
      if tops.getD m 0 < v then sortedIndexGo tops v fuel (m + 1) hi
      else sortedIndexGo tops v fuel lo m
    else lo

/-- `_.sortedIndex(this.data, { __top: v }, '__top')` over the `__top`
sequence. -/
def sortedIndex (tops : List ℚ) (v : ℚ) : Nat :=
  sortedIndexGo tops v tops.length 0 tops.length

/-- Lines 95-101 of `updateVisibleRows`: `screenTop = scrollTop`,
`screenBottom = scrollTop + clientHeight`, `screenMidpoint` their average,
`midNdx` by `_.sortedIndex`, and the fill window
`fillStart = max(0, midNdx - ceil(availableNodes / 2))` (truncated `Nat`
subtraction is exactly the `max` with 0) and
`fillEnd = min(data.length, midNdx + ceil(availableNodes / 2))`, where
`ceil(n / 2) = (n + 1) / 2` on `Nat`.  Returns `(midNdx, fillStart, fillEnd)`. -/
def locateWindow {α : Type} (cfg : Config α) (scrollTop clientHeight : ℚ)
    (tops : List ℚ) : Nat × Nat × Nat :=
  let screenTop := scrollTop
  let screenBottom := scrollTop + clientHeight
  let screenMidpoint := (screenTop + screenBottom) / 2
  let midNdx := sortedIndex tops screenMidpoint
  let half := (cfg.availableNodes + 1) / 2
  (midNdx, midNdx - half, min tops.length (midNdx + half))

/-- Lines 107-108: `while (rowsWithNodes[f] > fillStart && rowsWithNodes[f] <
fillEnd) f++`.  When `f` runs past the end, `rowsWithNodes[f]` is `undefined`
in JS and both comparisons are false, so the loop stops (modelled by the
`none` case).  Fuel is `rowsWithNodes.length - f` at the call site, enough
for the whole remaining suffix. -/
def scanFree (rwn : List Nat) (fillStart fillEnd : Nat) : Nat → Nat → Nat
  | 0, f => f
  | fuel + 1, f =>
    match rwn[f]? with
    | some v =>
      if fillStart < v ∧ v < fillEnd then scanFree rwn fillStart fillEnd fuel (f + 1)
      else f
    | none => f

/-- Lines 105-116, the recycle loop: for `rowNdx` in `[fillStart, fillEnd)`,
if the row has no node, scan for the first slot of `rowsWithNodes` whose row
is not strictly inside `(fillStart, fillEnd)`, then steal that row's node:
assign it, invoke `updateRow`, write the node's `style.top`, null the old
row's `__node`, overwrite the slot with `rowNdx`, advance the cursor.  The
three `err := true` exits model the thrown `TypeError`s: `data[rowNdx]`
undefined (unreachable since `fillEnd ≤ data.length`), `rowsWithNodes[f1]`
undefined (scan ran past the end) or `data[oldRow]` undefined, and
`null.style.top` when the stolen slot's row had no node.  Fuel is
`fillEnd - rowNdx` at every call site. -/
def recycleLoop {α : Type} (fillStart fillEnd : Nat) :
    Nat → TableState α → Nat → Nat → List (Nat × Option Nat) → List (Nat × ℚ) →
    PassResult α
  | 0, st, _rowNdx, f, upds, pws => ⟨{ st with isUpdating := false }, upds, pws, f, false⟩
  | fuel + 1, st, rowNdx, f, upds, pws =>
    match st.data[rowNdx]? with
    | none => ⟨st, upds, pws, f, true⟩
    | some row =>
      match row.node with
      | some _ => recycleLoop fillStart fillEnd fuel st (rowNdx + 1) f upds pws
      | none =>
        let f1 := scanFree st.rowsWithNodes fillStart fillEnd
                    (st.rowsWithNodes.length - f) f
        match st.rowsWithNodes[f1]? with
        | none => ⟨st, upds, pws, f1, true⟩
        | some oldRow =>
          match st.data[oldRow]? with
          | none => ⟨st, upds, pws, f1, true⟩
          | some oldRec =>
            let nd := oldRec.node
            let stA := { st with data := st.data.set rowNdx { row with node := nd } }
            let upds1 := upds ++ [(rowNdx, nd)]
            match nd with
            | none => ⟨stA, upds1, pws, f1, true⟩
            | some nid =>
              let stB := { stA with
                           data := (stA.data.set oldRow { oldRec with node := none }),
                           nodePos := stA.nodePos.set nid row.top,
                           rowsWithNodes := stA.rowsWithNodes.set f1 rowNdx }
              recycleLoop fillStart fillEnd fuel stB (rowNdx + 1) (f1 + 1)
                upds1 (pws ++ [(nid, row.top)])

/-- `ScrollableTable.prototype.updateVisibleRows`: drop the notification if
`isUpdating`; otherwise set the guard, locate the fill window, take the
no-change fast path when `lastMidNdx === midNdx`, else record `midNdx` and
run the recycle loop with `freeSearchNdx` starting at 0. -/
def updateVisibleRows {α : Type} (cfg : Config α) (scrollTop clientHeight : ℚ)
    (st : TableState α) : PassResult α :=
  if st.isUpdating then ⟨st, [], [], 0, false⟩
  else
    let st0 := { st with isUpdating := true }
    let w := locateWindow cfg scrollTop clientHeight (st0.data.map RowData.top)
    if st0.lastMidNdx = some w.1 then ⟨{ st0 with isUpdating := false }, [], [], 0, false⟩
    else
      recycleLoop w.2.1 w.2.2 (w.2.2 - w.2.1)
        { st0 with lastMidNdx := some w.1 } w.2.1 0 [] []

/-- Modelled from the spec: the Surface Pool Manager variant in which the
free-surface scan cursor is persistent instance state — "Scan the Assignment
Index starting from a persistent cursor (not reset per call)", "reset at
`initialize`, persists across `recycle` calls".  Identical to
`updateVisibleRows` except that the scan starts from the carried `cursor0`
instead of 0; the caller threads `(result).cursor` into the next call.  This
definition exists only to compare the spec's wording with the source, whose
`freeSearchNdx` is a local variable initialised to 0 on every call. -/
def updateVisibleRowsP {α : Type} (cfg : Config α) (scrollTop clientHeight : ℚ)
    (st : TableState α) (cursor0 : Nat) : PassResult α :=
  if st.isUpdating then ⟨st, [], [], cursor0, false⟩
  else
    let st0 := { st with isUpdating := true }
    let w := locateWindow cfg scrollTop clientHeight (st0.data.map RowData.top)
    if st0.lastMidNdx = some w.1 then
      ⟨{ st0 with isUpdating := false }, [], [], cursor0, false⟩
    else
      recycleLoop w.2.1 w.2.2 (w.2.2 - w.2.1)
        { st0 with lastMidNdx := some w.1 } w.2.1 cursor0 [] []

/-- The `__node` field of row `i`, `none` when `i` is out of range. -/
def nodeAt {α : Type} (st : TableState α) (i : Nat) : Option Nat :=
  (st.data[i]?).bind RowData.node

/-- The row indices currently holding a node (the set the spec's bijection
invariant speaks about), as a duplicate-free ascending list. -/
def assignedIndices {α : Type} (st : TableState α) : List Nat :=
  (List.range st.data.length).filter (fun i => (nodeAt st i).isSome)

/-- No node id is referenced by two distinct rows. -/
def NodeInjective {α : Type} (st : TableState α) : Prop :=
  ∀ i < st.data.length, ∀ j < st.data.length,
    (nodeAt st i).isSome → nodeAt st i = nodeAt st j → i = j

/-- The Assignment Index is well-formed: `rowsWithNodes` is duplicate-free,
holds valid row indices, and lists exactly the rows with a non-null
`__node`. -/
def PoolCore {α : Type} (st : TableState α) : Prop :=
  st.rowsWithNodes.Nodup ∧
  (∀ v ∈ st.rowsWithNodes, v < st.data.length) ∧
  (∀ i < st.data.length, ((nodeAt st i).isSome ↔ i ∈ st.rowsWithNodes))

/-- The pool/assignment-index invariant maintained between passes:
`PoolCore` plus `rowsWithNodes` having length `min availableNodes
data.length` and nodes not being shared between rows. -/
def PoolInv {α : Type} (cfg : Config α) (st : TableState α) : Prop :=
  PoolCore st ∧
  st.rowsWithNodes.length = min cfg.availableNodes st.data.length ∧
  NodeInjective st

/-! Concrete configurations and states used by scenario checks, witnesses and
counterexamples.  All use unit payloads and the default constant height 10. -/

/-- Pool budget 1 (`availableNodes := 1`). -/
def cfgPool1 : Config Unit := ⟨fun _ => 10, 1, 400⟩

/-- Pool budget 2. -/
def cfgPool2 : Config Unit := ⟨fun _ => 10, 2, 400⟩

/-- Pool budget 4. -/
def cfgPool4 : Config Unit := ⟨fun _ => 10, 4, 400⟩

/-- Pool budget 5 (spec Scenario C). -/
def cfgPool5 : Config Unit := ⟨fun _ => 10, 5, 400⟩

/-- Pool budget 100, viewport 400 (spec Scenarios A and B). -/
def cfgPool100 : Config Unit := ⟨fun _ => 10, 100, 400⟩

/-- Three data rows. -/
def rows3 : List Unit := List.replicate 3 ()

/-- Six data rows. -/
def rows6 : List Unit := List.replicate 6 ()

/-- One thousand data rows (spec Scenarios A and B). -/
def rows1000 : List Unit := List.replicate 1000 ()

/-- Freshly constructed table: budget 1, 3 rows. -/
def stPool1 : TableState Unit := (construct cfgPool1 rows3).1

/-- Freshly constructed table: budget 2, 6 rows. -/
def stPool2 : TableState Unit := (construct cfgPool2 rows6).1

/-- Freshly constructed table: budget 4, 6 rows. -/
def stPool4 : TableState Unit := (construct cfgPool4 rows6).1

/-- Freshly constructed table of spec Scenario A: budget 100, 1000 rows. -/
def stScenarioA : TableState Unit := (construct cfgPool100 rows1000).1

/-- A controller state with an empty data set (used to witness universally
quantified claims at a concrete input). -/
def stEmpty : TableState Unit :=
  { data := [], rowsWithNodes := [], yPosition := 0, totalHeight := 0,
    bottomTop := 0, nodePos := [], lastMidNdx := none, isUpdating := false,
    childCount := 0 }

/-! Lemmas about `calculateHeights` (the Offset Index). -/

theorem calculateHeights_fst_length {α : Type} (hf : α → ℚ) :
    ∀ (ps : List α) (acc : ℚ), (calculateHeights hf ps acc).1.length = ps.length
  | [], _ => rfl
  | p :: ps, acc => by
      simp [calculateHeights, calculateHeights_fst_length hf ps (acc + hf p)]

theorem calculateHeights_snd {α : Type} (hf : α → ℚ) :
    ∀ (ps : List α) (acc : ℚ), (calculateHeights hf ps acc).2 = acc + (ps.map hf).sum
  | [], acc => by simp [calculateHeights]
  | p :: ps, acc => by
      simp [calculateHeights, calculateHeights_snd hf ps (acc + hf p)]
      ring

theorem calculateHeights_getD {α : Type} (hf : α → ℚ) :
    ∀ (ps : List α) (acc : ℚ) (i : Nat), i < ps.length →
      (calculateHeights hf ps acc).1.getD i 0 = acc + ((ps.take i).map hf).sum
  | [], _, i, h => absurd h (by simp)
  | p :: ps, acc, 0, _ => by simp [calculateHeights]
  | p :: ps, acc, i + 1, h => by
      have ih := calculateHeights_getD hf ps (acc + hf p) i (by simpa using h)
      simp only [calculateHeights, List.take_succ_cons, List.map_cons, List.sum_cons,
        List.getD_cons_succ]
      rw [ih]
      ring

theorem sum_map_take_succ {α : Type} (hf : α → ℚ) (ps : List α) (i : Nat)
    (h : i < ps.length) :
    ((ps.take (i + 1)).map hf).sum = ((ps.take i).map hf).sum + hf (ps.get ⟨i, h⟩) := by
  rw [List.take_succ, List.getElem?_eq_getElem h]
  simp only [List.map_append, List.sum_append, List.map_cons, List.map_nil,
    List.sum_cons, List.sum_nil, List.get_eq_getElem, Option.toList_some, add_zero]

theorem sum_map_take_mono {α : Type} (hf : α → ℚ) (ps : List α)
    (hnn : ∀ p ∈ ps, 0 ≤ hf p) (i j : Nat) (hij : i ≤ j) :
    ((ps.take i).map hf).sum ≤ ((ps.take j).map hf).sum := by
  have hsplit : ps.take j = ps.take i ++ (ps.drop i).take (j - i) := by
    rw [← List.take_add]
    congr 1
    omega
  rw [hsplit]
  simp only [List.map_append, List.sum_append, le_add_iff_nonneg_right]
  apply List.sum_nonneg
  intro x hx
  simp only [List.mem_map] at hx
  obtain ⟨p, hp, rfl⟩ := hx
  exact hnn p (List.mem_of_mem_drop (List.mem_of_mem_take hp))

/-- Claim C9: `calculateHeights` assigns each row the sum of the heights of
all preceding rows (so `offset[i+1] = offset[i] + height(row[i])`), returns
the total extent equal to the sum of all heights, yields total extent 0 with
no offsets for zero rows, and for every non-negative height function the
offsets are non-decreasing across the full row sequence. -/
theorem claim9_offsets {α : Type} (hf : α → ℚ) (ps : List α) :
    (calculateHeights hf ps 0).1.length = ps.length
    ∧ (calculateHeights hf ps 0).2 = (ps.map hf).sum
    ∧ (∀ i, i < ps.length →
        (calculateHeights hf ps 0).1.getD i 0 = ((ps.take i).map hf).sum)
    ∧ (∀ i, ∀ h : i + 1 < ps.length,
        (calculateHeights hf ps 0).1.getD (i + 1) 0
          = (calculateHeights hf ps 0).1.getD i 0 + hf (ps.get ⟨i, by omega⟩))
    ∧ calculateHeights hf ([] : List α) 0 = ([], 0)
    ∧ ((∀ p ∈ ps, 0 ≤ hf p) → ∀ i j, i ≤ j → j < ps.length →
        (calculateHeights hf ps 0).1.getD i 0 ≤ (calculateHeights hf ps 0).1.getD j 0) := by
  refine ⟨calculateHeights_fst_length hf ps 0, ?_, ?_, ?_, rfl, ?_⟩
  · rw [calculateHeights_snd hf ps 0]; ring
  · intro i hi
    rw [calculateHeights_getD hf ps 0 i hi]; ring
  · intro i h
    rw [calculateHeights_getD hf ps 0 (i + 1) h,
      calculateHeights_getD hf ps 0 i (by omega),
      sum_map_take_succ hf ps i (by omega)]
    ring
  · intro hnn i j hij hj
    rcases Nat.lt_or_ge i ps.length with hi | hi
    · rw [calculateHeights_getD hf ps 0 i hi, calculateHeights_getD hf ps 0 j hj]
      simpa using sum_map_take_mono hf ps hnn i j hij
    · omega

/-- Witness for C9 at a concrete two-row table of constant height 10. -/
theorem claim9_offsets_witness :
    (calculateHeights (fun _ => (10 : ℚ)) [(), ()] 0).2
        = (([(), ()] : List Unit).map (fun _ => (10 : ℚ))).sum
    ∧ (calculateHeights (fun _ => (10 : ℚ)) [(), ()] 0).1.getD 1 0
        = ((([(), ()] : List Unit).take 1).map (fun _ => (10 : ℚ))).sum :=
  ⟨(claim9_offsets (fun _ => (10 : ℚ)) [(), ()]).2.1,
   (claim9_offsets (fun _ => (10 : ℚ)) [(), ()]).2.2.1 1 (by decide)⟩

/-! Lemmas about `buildData`, `reset` and `construct` (the Lifecycle
Controller's initialization). -/

theorem buildData_length {α : Type} :
    ∀ (ps : List α) (ts : List ℚ) (k j : Nat),
      (buildData ps ts k j).length = min ps.length ts.length
  | [], ts, _, _ => by cases ts <;> simp [buildData]
  | p :: ps, [], _, _ => by simp [buildData]
  | p :: ps, t :: ts, k, j => by
      simp [buildData, buildData_length ps ts k (j + 1)]
      omega

theorem buildData_map_payload {α : Type} :
    ∀ (ps : List α) (ts : List ℚ) (k j : Nat), ps.length ≤ ts.length →
      (buildData ps ts k j).map RowData.payload = ps
  | [], ts, _, _, _ => by cases ts <;> simp [buildData]
  | p :: ps, [], _, _, h => by simp at h
  | p :: ps, t :: ts, k, j, h => by
      simp [buildData, buildData_map_payload ps ts k (j + 1) (by simpa using h)]

theorem buildData_getElem? {α : Type} :
    ∀ (ps : List α) (ts : List ℚ) (k j i : Nat) (h1 : i < ps.length) (h2 : i < ts.length),
      (buildData ps ts k j)[i]?
        = some ⟨ps.get ⟨i, h1⟩, ts.get ⟨i, h2⟩, if j + i < k then some (j + i) else none⟩
  | [], _, _, _, i, h1, _ => absurd h1 (by simp)
  | p :: ps, [], _, _, i, _, h2 => absurd h2 (by simp)
  | p :: ps, t :: ts, k, j, 0, _, _ => by simp [buildData]
  | p :: ps, t :: ts, k, j, i + 1, h1, h2 => by
      have ih := buildData_getElem? ps ts k (j + 1) i (by simpa using h1) (by simpa using h2)
      have e : j + 1 + i = j + (i + 1) := by omega
      simp only [buildData, List.getElem?_cons_succ, ih, e, List.get_cons_succ]

theorem initState_payloads {α : Type} (pl : List α) :
    (initState pl).data.map RowData.payload = pl := by
  simp [initState, List.map_map, Function.comp_def]

/-- `construct` in closed form: the fields a fresh instance ends up with. -/
theorem construct_eq {α : Type} (cfg : Config α) (pl : List α) :
    construct cfg pl =
      ({ data := buildData pl (calculateHeights cfg.heightFn pl 0).1
                   (min cfg.availableNodes pl.length) 0,
         rowsWithNodes := List.range (min cfg.availableNodes pl.length),
         yPosition := 0,
         totalHeight := (calculateHeights cfg.heightFn pl 0).2,
         bottomTop := (calculateHeights cfg.heightFn pl 0).2,
         nodePos := (calculateHeights cfg.heightFn pl 0).1.take
                      (min cfg.availableNodes pl.length),
         lastMidNdx := none,
         isUpdating := false,
         childCount := min cfg.availableNodes pl.length + 1 },
       min cfg.availableNodes pl.length) := by
  simp only [construct, reset, initState_payloads]
  rfl

/-- Claim C7 (code bug): the spec says `reset()` terminates and is
idempotent, but the clear loop of line 58,
`while (this.el.firstChild) { this.el.remove(this.el.firstChild); }`,
calls `Element.remove()`, which takes no arguments, ignores
`this.el.firstChild`, and detaches the container itself, leaving its child
list unchanged — so the loop never terminates once the container has a
child.  Every `reset` appends the built row nodes and `bottomEl`, so the
first `reset` (from the constructor, budget 2, six rows) returns and leaves
three children in the container, and the second `reset()` call hangs
forever (modelled: `reset` returns `none`). -/
theorem claim7_reset_second_call_diverges :
    (reset cfgPool2 (initState rows6)).isSome = true
    ∧ (construct cfgPool2 rows6).1.childCount = 3
    ∧ reset cfgPool2 (construct cfgPool2 rows6).1 = none := by
  refine ⟨by decide, by decide, by decide⟩

theorem take_getD {β : Type} (l : List β) (k i : Nat) (d : β) (h : i < k) :
    (l.take k).getD i d = l.getD i d := by
  simp [List.getD_eq_getElem?_getD, List.getElem?_take, h]

theorem calculateHeights_replicate_getD (h : ℚ) (n i : Nat) (hi : i < n) :
    (calculateHeights (fun _ => h) (List.replicate n ()) 0).1.getD i 0 = h * i := by
  rw [calculateHeights_getD _ _ _ i (by simpa using hi)]
  simp [List.take_replicate, List.map_replicate, List.sum_replicate,
    Nat.min_eq_left (Nat.le_of_lt hi), nsmul_eq_mul]
  ring

theorem calculateHeights_replicate_snd (h : ℚ) (n : Nat) :
    (calculateHeights (fun _ => h) (List.replicate n ()) 0).2 = n * h := by
  rw [calculateHeights_snd]
  simp [List.map_replicate, List.sum_replicate, nsmul_eq_mul]

/-- Claim C8: after initialization with `n` rows and pool budget `p`, exactly
`min p n` surfaces are built via the build callback and assigned to rows
`0 .. min p n - 1`, each positioned at its own row's cumulative offset, and
the extent marker sits at the total extent.  Concretely, 1000 rows of height
10 with budget 100 yield rows 0-99 assigned, node `i` at position `10 * i`,
marker at 10000; and budget 5 with 3 rows builds only 3 surfaces. -/
theorem claim8_initialization :
    (∀ (α : Type) (cfg : Config α) (pl : List α),
      (construct cfg pl).2 = min cfg.availableNodes pl.length
      ∧ (∀ i, i < min cfg.availableNodes pl.length →
          nodeAt (construct cfg pl).1 i = some i
          ∧ (construct cfg pl).1.nodePos.getD i 0
              = (calculateHeights cfg.heightFn pl 0).1.getD i 0)
      ∧ (∀ i, min cfg.availableNodes pl.length ≤ i →
          nodeAt (construct cfg pl).1 i = none)
      ∧ (construct cfg pl).1.bottomTop = (calculateHeights cfg.heightFn pl 0).2)
    ∧ (∀ i, i < 100 → nodeAt stScenarioA i = some i
        ∧ stScenarioA.nodePos.getD i 0 = 10 * i)
    ∧ stScenarioA.bottomTop = 10000
    ∧ (construct cfgPool5 rows3).2 = 3 := by
  have main : ∀ (α : Type) (cfg : Config α) (pl : List α),
      (construct cfg pl).2 = min cfg.availableNodes pl.length
      ∧ (∀ i, i < min cfg.availableNodes pl.length →
          nodeAt (construct cfg pl).1 i = some i
          ∧ (construct cfg pl).1.nodePos.getD i 0
              = (calculateHeights cfg.heightFn pl 0).1.getD i 0)
      ∧ (∀ i, min cfg.availableNodes pl.length ≤ i →
          nodeAt (construct cfg pl).1 i = none)
      ∧ (construct cfg pl).1.bottomTop = (calculateHeights cfg.heightFn pl 0).2 := by
    intro α cfg pl
    have hlen : (calculateHeights cfg.heightFn pl 0).1.length = pl.length :=
      calculateHeights_fst_length ..
    refine ⟨by rw [construct_eq], ?_, ?_, by rw [construct_eq]⟩
    · intro i hi
      have hi1 : i < pl.length := lt_of_lt_of_le hi (Nat.min_le_right ..)
      have hget := buildData_getElem? pl (calculateHeights cfg.heightFn pl 0).1
        (min cfg.availableNodes pl.length) 0 i hi1 (by rw [hlen]; exact hi1)
      constructor
      · rw [construct_eq]
        simp only [nodeAt, hget, Option.bind_some]
        simp only [Nat.zero_add]
        simp [hi]
      · rw [construct_eq]
        exact take_getD _ _ _ _ hi
    · intro i hi
      rcases Nat.lt_or_ge i pl.length with hlt | hge
      · have hget := buildData_getElem? pl (calculateHeights cfg.heightFn pl 0).1
          (min cfg.availableNodes pl.length) 0 i hlt (by rw [hlen]; exact hlt)
        rw [construct_eq]
        simp only [nodeAt, hget, Option.bind_some]
        simp only [Nat.zero_add]
        rw [if_neg (by omega : ¬ i < min cfg.availableNodes pl.length)]
        rfl
      · rw [construct_eq]
        simp only [nodeAt]
        rw [List.getElem?_eq_none (by rw [buildData_length, hlen]; omega)]
        rfl
  refine ⟨main, ?_, ?_, ?_⟩
  · intro i hi
    have h := (main Unit cfgPool100 rows1000).2.1 i
      (by simpa [cfgPool100, rows1000] using hi)
    refine ⟨h.1, ?_⟩
    show (construct cfgPool100 rows1000).1.nodePos.getD i 0 = 10 * i
    rw [h.2]
    show (calculateHeights (fun _ => (10 : ℚ)) (List.replicate 1000 ()) 0).1.getD i 0 = 10 * i
    exact calculateHeights_replicate_getD 10 1000 i (by omega)
  · have h := (main Unit cfgPool100 rows1000).2.2.2
    show (construct cfgPool100 rows1000).1.bottomTop = 10000
    rw [h]
    show (calculateHeights (fun _ => (10 : ℚ)) (List.replicate 1000 ()) 0).2 = 10000
    rw [calculateHeights_replicate_snd]
    norm_num
  · rw [(main Unit cfgPool5 rows3).1]
    rfl

/-- Witness for C8 at row 99 of spec Scenario A. -/
theorem claim8_initialization_witness :
    nodeAt stScenarioA 99 = some 99 ∧ stScenarioA.nodePos.getD 99 0 = 10 * 99 := by
  have h := claim8_initialization.2.1 99 (by decide)
  exact ⟨h.1, by simpa using h.2⟩

/-! Lemmas about `sortedIndex` (the lodash lower-bound binary search) and the
Window Locator. -/

theorem sorted_getD_mono (l : List ℚ) (hs : List.Pairwise (· ≤ ·) l) (i j : Nat)
    (hij : i ≤ j) (hj : j < l.length) : l.getD i 0 ≤ l.getD j 0 := by
  have hi : i < l.length := lt_of_le_of_lt hij hj
  rw [List.getD_eq_getElem?_getD, List.getD_eq_getElem?_getD,
    List.getElem?_eq_getElem hi, List.getElem?_eq_getElem hj]
  simp only [Option.getD_some]
  rcases Nat.eq_or_lt_of_le hij with rfl | hlt
  · exact le_refl _
  · exact List.pairwise_iff_getElem.mp hs i j hi hj hlt

theorem sortedIndexGo_spec (tops : List ℚ) (v : ℚ) (hs : List.Pairwise (· ≤ ·) tops) :
    ∀ (fuel lo hi : Nat), lo ≤ hi → hi ≤ tops.length → hi - lo ≤ fuel →
      (∀ i, i < lo → tops.getD i 0 < v) →
      (∀ i, hi ≤ i → i < tops.length → v ≤ tops.getD i 0) →
      (∀ i, i < sortedIndexGo tops v fuel lo hi → tops.getD i 0 < v)
      ∧ (sortedIndexGo tops v fuel lo hi < tops.length →
          v ≤ tops.getD (sortedIndexGo tops v fuel lo hi) 0)
      ∧ sortedIndexGo tops v fuel lo hi ≤ tops.length := by
  intro fuel
  induction fuel with
  | zero =>
    intro lo hi hlohi hhi hfuel h1 h2
    have : lo = hi := by omega
    subst this
    simp only [sortedIndexGo]
    exact ⟨h1, fun h => h2 lo le_rfl h, by omega⟩
  | succ fuel ih =>
    intro lo hi hlohi hhi hfuel h1 h2
    by_cases hlt : lo < hi
    · have hm1 : lo ≤ (lo + hi) / 2 := by omega
      have hm2 : (lo + hi) / 2 < hi := by omega
      simp only [sortedIndexGo, if_pos hlt]
      by_cases hcmp : tops.getD ((lo + hi) / 2) 0 < v
      · rw [if_pos hcmp]
        refine ih ((lo + hi) / 2 + 1) hi (by omega) hhi (by omega) ?_ h2
        intro i hilt
        exact lt_of_le_of_lt
          (sorted_getD_mono tops hs i ((lo + hi) / 2) (by omega) (by omega)) hcmp
      · rw [if_neg hcmp]
        refine ih lo ((lo + hi) / 2) (by omega) (by omega) (by omega) h1 ?_
        intro i hile hilen
        exact le_trans (not_lt.mp hcmp)
          (sorted_getD_mono tops hs ((lo + hi) / 2) i hile hilen)
    · have : lo = hi := by omega
      subst this
      simp only [sortedIndexGo, if_neg hlt]
      exact ⟨h1, fun h => h2 lo le_rfl h, by omega⟩

theorem findIdx_eq_of (p : ℚ → Bool) :
    ∀ (l : List ℚ) (r : Nat), r ≤ l.length →
      (∀ i, i < r → p (l.getD i 0) = false) →
      (r < l.length → p (l.getD r 0) = true) →
      l.findIdx p = r
  | [], r, hr, _, _ => by simp at hr ⊢; omega
  | x :: xs, 0, _, _, h2 => by
      have hx := h2 (by simp)
      rw [List.getD_cons_zero] at hx
      rw [List.findIdx_cons, hx]
      rfl
  | x :: xs, r + 1, hr, h1, h2 => by
      have hx : p x = false := by
        have := h1 0 (by omega)
        simpa using this
      rw [List.findIdx_cons, hx]
      have := findIdx_eq_of p xs r (by simpa using hr)
        (fun i hi => by simpa using h1 (i + 1) (by omega))
        (fun hlt => by simpa using h2 (by simpa using hlt))
      simp [this]

/-- On a sorted offsets sequence, the lodash binary search computes exactly
the lower-bound insertion point: the first index whose offset is `≥ v`
(`tops.length` when every offset is below `v`). -/
theorem sortedIndex_eq_findIdx (tops : List ℚ) (v : ℚ)
    (hs : List.Pairwise (· ≤ ·) tops) :
    sortedIndex tops v = tops.findIdx (fun t => decide (v ≤ t)) := by
  obtain ⟨h1, h2, h3⟩ := sortedIndexGo_spec tops v hs tops.length 0 tops.length
    (by omega) le_rfl (by omega) (by omega) (by omega)
  symm
  apply findIdx_eq_of _ _ _ h3
  · intro i hi
    simpa [decide_eq_false_iff_not, not_le] using h1 i hi
  · intro hlt
    simpa using h2 hlt

theorem ceil_half_nat (n : Nat) : ⌈(n : ℚ) / 2⌉ = (((n + 1) / 2 : Nat) : ℤ) := by
  rcases Nat.even_or_odd n with ⟨m, rfl⟩ | ⟨m, rfl⟩
  · have hx : ((m + m : Nat) : ℚ) / 2 = (m : ℚ) := by push_cast; ring
    rw [hx, Int.ceil_natCast]
    have : (m + m + 1) / 2 = m := by omega
    rw [this]
  · have hcast : ((2 * m + 1 : Nat) : ℚ) / 2 = (2 * (m : ℚ) + 1) / 2 := by push_cast; ring
    have hval : (2 * m + 1 + 1) / 2 = m + 1 := by omega
    rw [hcast, hval]
    have hle : ⌈(2 * (m : ℚ) + 1) / 2⌉ ≤ ((m + 1 : Nat) : ℤ) := by
      apply Int.ceil_le.mpr
      push_cast
      linarith
    have hge : ((m + 1 : Nat) : ℤ) ≤ ⌈(2 * (m : ℚ) + 1) / 2⌉ := by
      apply Int.le_ceil_iff.mpr
      push_cast
      linarith
    omega

theorem buildData_map_top {α : Type} :
    ∀ (ps : List α) (ts : List ℚ) (k j : Nat), ts.length ≤ ps.length →
      (buildData ps ts k j).map RowData.top = ts
  | ps, [], _, _, _ => by cases ps <;> simp [buildData]
  | [], t :: ts, _, _, h => by simp at h
  | p :: ps, t :: ts, k, j, h => by
      simp [buildData, buildData_map_top ps ts k (j + 1) (by simpa using h)]

theorem calculateHeights_replicate_fst (h : ℚ) :
    ∀ (n : Nat) (acc : ℚ),
      (calculateHeights (fun _ => h) (List.replicate n ()) acc).1
        = (List.range n).map (fun i : ℕ => acc + h * (i : ℚ))
  | 0, acc => by simp [calculateHeights]
  | n + 1, acc => by
      rw [List.replicate_succ]
      simp only [calculateHeights, calculateHeights_replicate_fst h n (acc + h)]
      rw [List.range_succ_eq_map]
      simp only [List.map_cons, List.map_map]
      congr 1
      · norm_num
      · apply List.map_congr_left
        intro i _
        simp only [Function.comp_apply]
        push_cast
        ring

theorem range_map_linear_sorted (h : ℚ) (hh : 0 ≤ h) (n : Nat) :
    List.Pairwise (· ≤ ·) ((List.range n).map (fun i : ℕ => h * (i : ℚ))) := by
  apply List.pairwise_iff_getElem.mpr
  intro i j hi hj hij
  rw [List.length_map, List.length_range] at hi hj
  rw [List.getElem_map, List.getElem_map, List.getElem_range, List.getElem_range]
  have hcast : (i : ℚ) ≤ (j : ℚ) := by exact_mod_cast Nat.le_of_lt hij
  exact mul_le_mul_of_nonneg_left hcast hh

/-- The `__top` sequence of spec Scenario A is `0, 10, 20, ..., 9990`. -/
theorem stScenarioA_tops :
    stScenarioA.data.map RowData.top = (List.range 1000).map (fun i : ℕ => (10 : ℚ) * i) := by
  show ((construct cfgPool100 rows1000).1).data.map RowData.top = _
  simp only [construct_eq]
  rw [buildData_map_top _ _ _ _ (by simp [calculateHeights_fst_length, rows1000])]
  show (calculateHeights (fun _ => (10 : ℚ)) (List.replicate 1000 ()) 0).1 = _
  rw [calculateHeights_replicate_fst]
  apply List.map_congr_left
  intro i _
  ring

/-- Claim C6: the Window Locator computes `midpoint = (top + bottom) / 2`,
`midIndex` = the lower-bound insertion point of `midpoint` into the offsets,
`fillStart = max(0, midIndex - ceil(budget/2))` and `fillEnd = min(rowCount,
midIndex + ceil(budget/2))`; with 1000 rows of height 10, budget 100,
viewport height 400 and scroll top 5000: `midIndex = 520` and the window is
`[470, 570)`. -/
theorem claim6_window_locator :
    (∀ (α : Type) (cfg : Config α) (sT cH : ℚ) (tops : List ℚ),
      List.Pairwise (· ≤ ·) tops →
      (locateWindow cfg sT cH tops).1
          = tops.findIdx (fun t => decide ((sT + (sT + cH)) / 2 ≤ t))
      ∧ (((locateWindow cfg sT cH tops).2.1 : ℤ)
          = max 0 (((locateWindow cfg sT cH tops).1 : ℤ)
              - ⌈(cfg.availableNodes : ℚ) / 2⌉))
      ∧ (locateWindow cfg sT cH tops).2.2
          = min tops.length ((locateWindow cfg sT cH tops).1 + (cfg.availableNodes + 1) / 2)
      ∧ (((cfg.availableNodes + 1) / 2 : Nat) : ℤ) = ⌈(cfg.availableNodes : ℚ) / 2⌉)
    ∧ locateWindow cfgPool100 5000 400 (stScenarioA.data.map RowData.top)
        = (520, 470, 570) := by
  constructor
  · intro α cfg sT cH tops hsorted
    refine ⟨?_, ?_, rfl, (ceil_half_nat cfg.availableNodes).symm⟩
    · exact sortedIndex_eq_findIdx tops _ hsorted
    · rw [ceil_half_nat cfg.availableNodes]
      simp only [locateWindow]
      omega
  · have hsorted := range_map_linear_sorted 10 (by norm_num) 1000
    have hmid : ((5000 : ℚ) + (5000 + 400)) / 2 = 5200 := by norm_num
    have hfind : ((List.range 1000).map (fun i : ℕ => (10 : ℚ) * i)).findIdx
        (fun t => decide ((5200 : ℚ) ≤ t)) = 520 := by
      apply findIdx_eq_of _ _ _ (by simp)
      · intro i hi
        have hlen : i < 1000 := by omega
        rw [List.getD_eq_getElem?_getD, List.getElem?_eq_getElem (by simpa using hlen)]
        simp only [List.getElem_map, List.getElem_range, Option.getD_some,
          decide_eq_false_iff_not, not_le]
        have : (i : ℚ) < 520 := by exact_mod_cast hi
        linarith
      · intro _
        rw [List.getD_eq_getElem?_getD, List.getElem?_eq_getElem (by simp)]
        simp only [List.getElem_map, List.getElem_range, Option.getD_some]
        norm_num
    have hsi : sortedIndex ((List.range 1000).map (fun i : ℕ => (10 : ℚ) * i)) 5200 = 520 := by
      rw [sortedIndex_eq_findIdx _ _ hsorted, hfind]
    rw [stScenarioA_tops]
    simp only [locateWindow, hmid, hsi, cfgPool100, List.length_map, List.length_range]
    rfl

/-- Witness for C6 on the sorted three-row offsets `0, 10, 20`. -/
theorem claim6_window_locator_witness :
    (locateWindow cfgPool1 10 10 [0, 10, 20]).1
      = [(0 : ℚ), 10, 20].findIdx (fun t => decide ((10 + (10 + 10)) / 2 ≤ t)) :=
  (claim6_window_locator.1 Unit cfgPool1 10 10 [0, 10, 20] (by decide)).1

/-! Basic preservation lemmas about the recycle loop and the scroll handler
(the Lifecycle Controller's guard discipline). -/

theorem recycleLoop_basic {α : Type} (fillStart fillEnd : Nat) :
    ∀ (fuel : Nat) (st : TableState α) (rowNdx f : Nat)
      (upds : List (Nat × Option Nat)) (pws : List (Nat × ℚ)),
      (recycleLoop fillStart fillEnd fuel st rowNdx f upds pws).state.lastMidNdx
          = st.lastMidNdx
      ∧ (recycleLoop fillStart fillEnd fuel st rowNdx f upds pws).state.data.length
          = st.data.length
      ∧ (recycleLoop fillStart fillEnd fuel st rowNdx f upds pws).state.rowsWithNodes.length
          = st.rowsWithNodes.length
      ∧ ((recycleLoop fillStart fillEnd fuel st rowNdx f upds pws).err = true →
          (recycleLoop fillStart fillEnd fuel st rowNdx f upds pws).state.isUpdating
            = st.isUpdating)
      ∧ ((recycleLoop fillStart fillEnd fuel st rowNdx f upds pws).err = false →
          (recycleLoop fillStart fillEnd fuel st rowNdx f upds pws).state.isUpdating
            = false) := by
  intro fuel
  induction fuel with
  | zero =>
    intro st rowNdx f upds pws
    simp [recycleLoop]
  | succ fuel ih =>
    intro st rowNdx f upds pws
    simp only [recycleLoop]
    split
    · simp
    · split
      · exact ih st _ _ upds pws
      · split
        · simp
        · split
          · simp
          · split
            · simp
            · exact ⟨(ih _ _ _ _ _).1.trans (by simp),
                (ih _ _ _ _ _).2.1.trans (by simp),
                (ih _ _ _ _ _).2.2.1.trans (by simp),
                fun he => ((ih _ _ _ _ _).2.2.2.1 he).trans (by simp),
                (ih _ _ _ _ _).2.2.2.2⟩

/-- Collapsing a no-op guard write: setting `isUpdating := false` on a state
whose guard is already clear is the identity. -/
theorem setIsUpdating_eta {α : Type} (s : TableState α) (h : s.isUpdating = false) :
    ({ s with isUpdating := false } : TableState α) = s := by
  cases s
  simp_all

/-- After one scroll pass, either `lastMidNdx` records the pass's `midNdx`,
or the pass was dropped/aborted with the guard still set. -/
theorem updateVisibleRows_lastMid {α : Type} (cfg : Config α) (sT cH : ℚ)
    (st : TableState α) :
    (updateVisibleRows cfg sT cH st).state.lastMidNdx
        = some (locateWindow cfg sT cH (st.data.map RowData.top)).1
    ∨ (updateVisibleRows cfg sT cH st).state.isUpdating = true := by
  by_cases hg : st.isUpdating = true
  · right
    simp [updateVisibleRows, hg]
  · have hg' : st.isUpdating = false := by simpa using hg
    by_cases hfast : st.lastMidNdx
        = some (locateWindow cfg sT cH (st.data.map RowData.top)).1
    · left
      simp [updateVisibleRows, hg', hfast]
    · left
      simp only [updateVisibleRows, hg', Bool.false_eq_true, if_false, if_neg hfast]
      exact (recycleLoop_basic _ _ _ _ _ _ _ _).1

/-- Claim C10: every non-re-entrant invocation of the scroll handler that
does not abort with a thrown error leaves the in-flight guard `isUpdating`
false on return, on both the fast path and the full recycle path, so a
subsequent notification is never dropped because of a stale guard left by a
completed pass. -/
theorem claim10_guard_cleared {α : Type} (cfg : Config α) (sT cH : ℚ)
    (st : TableState α) (hguard : st.isUpdating = false)
    (hok : (updateVisibleRows cfg sT cH st).err = false) :
    (updateVisibleRows cfg sT cH st).state.isUpdating = false := by
  by_cases hfast : st.lastMidNdx
      = some (locateWindow cfg sT cH (st.data.map RowData.top)).1
  · simp [updateVisibleRows, hguard, hfast]
  · simp only [updateVisibleRows, hguard, Bool.false_eq_true, if_false, if_neg hfast] at hok ⊢
    exact (recycleLoop_basic _ _ _ _ _ _ _ _).2.2.2.2 hok

/-- Witness for C10: a concrete non-re-entrant pass that completes. -/
theorem claim10_guard_cleared_witness :
    (updateVisibleRows cfgPool2 0 0 stEmpty).state.isUpdating = false :=
  claim10_guard_cleared cfgPool2 0 0 stEmpty (by decide) (by decide)

/-- Claim C5: if two consecutive scroll notifications resolve to the same
`midNdx`, the second performs zero `updateRow` invocations, zero position
writes and zero assignment mutations — it returns the first call's state
unchanged. -/
theorem claim5_noop_fast_path {α : Type} (cfg : Config α) (sT1 cH1 sT2 cH2 : ℚ)
    (st : TableState α)
    (hmid : (locateWindow cfg sT2 cH2
              ((updateVisibleRows cfg sT1 cH1 st).state.data.map RowData.top)).1
          = (locateWindow cfg sT1 cH1 (st.data.map RowData.top)).1) :
    updateVisibleRows cfg sT2 cH2 (updateVisibleRows cfg sT1 cH1 st).state
      = ⟨(updateVisibleRows cfg sT1 cH1 st).state, [], [], 0, false⟩ := by
  have hB0 := updateVisibleRows_lastMid cfg sT1 cH1 st
  generalize hS : (updateVisibleRows cfg sT1 cH1 st).state = s1 at hmid hB0 ⊢
  by_cases hu : s1.isUpdating = true
  · simp [updateVisibleRows, hu]
  · have hu' : s1.isUpdating = false := by simpa using hu
    have hB : s1.lastMidNdx
        = some (locateWindow cfg sT1 cH1 (st.data.map RowData.top)).1 := by
      rcases hB0 with h | h
      · exact h
      · rw [h] at hu'
        simp at hu'
    have hcond : s1.lastMidNdx
        = some (locateWindow cfg sT2 cH2 (s1.data.map RowData.top)).1 := by
      rw [hB, hmid]
    simp [updateVisibleRows, hu', hcond]
    rw [← hcond]
    exact setIsUpdating_eta s1 hu'

/-- Witness for C5: two identical scroll notifications on a concrete state. -/
theorem claim5_noop_fast_path_witness :
    updateVisibleRows cfgPool2 0 0 (updateVisibleRows cfgPool2 0 0 stEmpty).state
      = ⟨(updateVisibleRows cfgPool2 0 0 stEmpty).state, [], [], 0, false⟩ :=
  claim5_noop_fast_path cfgPool2 0 0 0 0 stEmpty (by decide)

/-! List helpers for reasoning about `List.set` on a duplicate-free
Assignment Index. -/

theorem nodup_getElem?_inj (l : List Nat) (hn : l.Nodup) (i j v : Nat)
    (hi : l[i]? = some v) (hj : l[j]? = some v) : i = j := by
  obtain ⟨hi1, hi2⟩ := List.getElem?_eq_some_iff.mp hi
  obtain ⟨hj1, hj2⟩ := List.getElem?_eq_some_iff.mp hj
  exact hn.getElem_inj_iff.mp (hi2.trans hj2.symm)

theorem mem_set_self_of_lt (l : List Nat) (i a : Nat) (h : i < l.length) :
    a ∈ l.set i a := by
  apply List.mem_iff_getElem?.mpr
  exact ⟨i, by rw [List.getElem?_set_self h]⟩

theorem not_mem_set_of_nodup (l : List Nat) (i a oldv : Nat) (hn : l.Nodup)
    (hold : l[i]? = some oldv) (hne : oldv ≠ a) : oldv ∉ l.set i a := by
  intro hmem
  obtain ⟨j, hj⟩ := List.mem_iff_getElem?.mp hmem
  rw [List.getElem?_set] at hj
  by_cases hij : i = j
  · rw [if_pos hij, if_pos (List.getElem?_eq_some_iff.mp hold).1] at hj
    exact hne (Option.some_injective _ hj).symm
  · rw [if_neg hij] at hj
    exact hij (nodup_getElem?_inj l hn i j oldv hold hj)

theorem mem_set_of_mem_of_ne (l : List Nat) (i a x oldv : Nat)
    (hold : l[i]? = some oldv) (hx : x ∈ l) (hne : x ≠ oldv) : x ∈ l.set i a := by
  obtain ⟨j, hj⟩ := List.mem_iff_getElem?.mp hx
  have hij : i ≠ j := by
    intro h
    subst h
    rw [hold] at hj
    exact hne (Option.some_injective _ hj.symm)
  apply List.mem_iff_getElem?.mpr
  exact ⟨j, by rw [List.getElem?_set_ne hij]; exact hj⟩

theorem mem_of_mem_set_of_ne (l : List Nat) (i a x oldv : Nat) (hn : l.Nodup)
    (hold : l[i]? = some oldv) (hmem : x ∈ l.set i a) (hxa : x ≠ a) :
    x ∈ l ∧ x ≠ oldv := by
  obtain ⟨j, hj⟩ := List.mem_iff_getElem?.mp hmem
  rw [List.getElem?_set] at hj
  by_cases hij : i = j
  · rw [if_pos hij] at hj
    by_cases hlen : i < l.length
    · rw [if_pos hlen] at hj
      exact absurd (Option.some_injective _ hj).symm hxa
    · rw [if_neg hlen] at hj
      cases hj
  · rw [if_neg hij] at hj
    constructor
    · obtain ⟨hj1, hj2⟩ := List.getElem?_eq_some_iff.mp hj
      exact hj2 ▸ List.getElem_mem hj1
    · intro h
      subst h
      exact hij (nodup_getElem?_inj l hn i j x hold hj)

theorem nodup_set_of_not_mem :
    ∀ (l : List Nat) (i a : Nat), l.Nodup → a ∉ l → (l.set i a).Nodup
  | [], _, _, _, _ => by simp
  | x :: xs, 0, a, hn, ha => by
      simp only [List.set_cons_zero]
      simp only [List.nodup_cons] at hn ⊢
      exact ⟨fun h => ha (List.mem_cons_of_mem x h), hn.2⟩
  | x :: xs, i + 1, a, hn, ha => by
      simp only [List.set_cons_succ]
      simp only [List.nodup_cons] at hn ⊢
      refine ⟨?_, nodup_set_of_not_mem xs i a hn.2
        (fun h => ha (List.mem_cons_of_mem x h))⟩
      intro hx
      rcases List.mem_or_eq_of_mem_set hx with h | h
      · exact hn.1 h
      · exact ha (h ▸ List.mem_cons_self ..)

/-- Correctness of the free-slot scan: given enough fuel, the cursor only
moves forward, stays within one past the Assignment Index, and when it stops
on an existing slot, that slot's row is not strictly inside the window. -/
theorem scanFree_spec (rwn : List Nat) (s e : Nat) :
    ∀ (fuel f : Nat), rwn.length ≤ f + fuel → f ≤ rwn.length →
      f ≤ scanFree rwn s e fuel f
      ∧ scanFree rwn s e fuel f ≤ rwn.length
      ∧ (∀ v, rwn[scanFree rwn s e fuel f]? = some v → ¬(s < v ∧ v < e)) := by
  intro fuel
  induction fuel with
  | zero =>
    intro f hfuel hf
    simp only [scanFree]
    refine ⟨le_rfl, hf, ?_⟩
    intro v hv
    have := (List.getElem?_eq_some_iff.mp hv).1
    omega
  | succ fuel ih =>
    intro f hfuel hf
    rcases hslot : rwn[f]? with _ | v
    · simp only [scanFree, hslot]
      exact ⟨le_rfl, hf, fun v2 hv2 => Option.noConfusion hv2⟩
    · simp only [scanFree, hslot]
      by_cases hcond : s < v ∧ v < e
      · rw [if_pos hcond]
        have hflen : f < rwn.length := (List.getElem?_eq_some_iff.mp hslot).1
        obtain ⟨ih1, ih2, ih3⟩ := ih (f + 1) (by omega) (by omega)
        exact ⟨by omega, ih2, ih3⟩
      · rw [if_neg hcond]
        refine ⟨le_rfl, hf, ?_⟩
        intro v2 hv2
        rw [hslot] at hv2
        have : v = v2 := by injection hv2
        subst this
        exact hcond

theorem getElem?_set_set {β : Type} (l : List β) (p q : Nat) (b c : β)
    (hp : p < l.length) (hq : q < l.length) (i : Nat) :
    ((l.set p b).set q c)[i]? = if q = i then some c else if p = i then some b
      else l[i]? := by
  rw [List.getElem?_set]
  by_cases h1 : q = i
  · rw [if_pos h1, if_pos h1, if_pos (by simpa using hq)]
  · rw [if_neg h1, if_neg h1, List.getElem?_set]
    by_cases h2 : p = i
    · rw [if_pos h2, if_pos h2, if_pos hp]
    · rw [if_neg h2, if_neg h2]

/-- Main loop invariant of the recycle pass.  Relative to the loop-entry state
`st0`, any error-free run of `recycleLoop` starting from a mid-pass
configuration `(st, rowNdx, f, upds, pws)` satisfying the invariants listed
as hypotheses ends in a state that preserves the pool sizes and the
well-formed Assignment Index, keeps every surface of a row strictly inside
the window, serves every row strictly inside the window, invokes the update
callback only on rows that lacked a surface at entry (row `fillStart` apart),
and writes positions only on surfaces stolen from rows not strictly inside
the window. -/
theorem recycleLoop_master {α : Type} (s e : Nat) (st0 : TableState α)
    (hnod0 : st0.rowsWithNodes.Nodup) :
    ∀ (fuel : Nat) (st : TableState α) (rowNdx f : Nat)
      (upds : List (Nat × Option Nat)) (pws : List (Nat × ℚ)),
      fuel + rowNdx = e →
      e ≤ st0.data.length →
      s ≤ rowNdx →
      f ≤ st.rowsWithNodes.length →
      st.data.length = st0.data.length →
      st.rowsWithNodes.length = st0.rowsWithNodes.length →
      PoolCore st →
      NodeInjective st →
      (∀ j, f ≤ j → st.rowsWithNodes[j]? = st0.rowsWithNodes[j]?) →
      (∀ j v, f ≤ j → st0.rowsWithNodes[j]? = some v → nodeAt st v = nodeAt st0 v) →
      (∀ i n, s < i → i < e → nodeAt st0 i = some n → nodeAt st i = some n) →
      (∀ i, s < i → i < rowNdx → (nodeAt st i).isSome) →
      (∀ x ∈ upds, s ≤ x.1 ∧ x.1 < rowNdx ∧ (s < x.1 → nodeAt st0 x.1 = none)) →
      (∀ w ∈ pws, ∃ v, v < st0.data.length ∧ ¬(s < v ∧ v < e)
          ∧ nodeAt st0 v = some w.1) →
      (recycleLoop s e fuel st rowNdx f upds pws).err = false →
      ((recycleLoop s e fuel st rowNdx f upds pws).state.data.length = st0.data.length
      ∧ (recycleLoop s e fuel st rowNdx f upds pws).state.rowsWithNodes.length
          = st0.rowsWithNodes.length
      ∧ PoolCore (recycleLoop s e fuel st rowNdx f upds pws).state
      ∧ NodeInjective (recycleLoop s e fuel st rowNdx f upds pws).state
      ∧ (∀ i n, s < i → i < e → nodeAt st0 i = some n →
          nodeAt (recycleLoop s e fuel st rowNdx f upds pws).state i = some n)
      ∧ (∀ i, s < i → i < e →
          (nodeAt (recycleLoop s e fuel st rowNdx f upds pws).state i).isSome)
      ∧ (∀ x ∈ (recycleLoop s e fuel st rowNdx f upds pws).updates,
          s ≤ x.1 ∧ x.1 < e ∧ (s < x.1 → nodeAt st0 x.1 = none))
      ∧ (∀ w ∈ (recycleLoop s e fuel st rowNdx f upds pws).posWrites,
          ∃ v, v < st0.data.length ∧ ¬(s < v ∧ v < e) ∧ nodeAt st0 v = some w.1)) := by
  intro fuel
  induction fuel with
  | zero =>
    intro st rowNdx f upds pws h1 h2 h3 h4 hlen hrlen hcore hinj hA hN hkept hproc
      hupds hpws hok
    have he : rowNdx = e := by omega
    subst he
    simp only [recycleLoop]
    exact ⟨hlen, hrlen, hcore, hinj, hkept, fun i hi1 hi2 => hproc i hi1 hi2,
      hupds, hpws⟩
  | succ fuel ih =>
    intro st rowNdx f upds pws h1 h2 h3 h4 hlen hrlen hcore hinj hA hN hkept hproc
      hupds hpws hok
    have hrow_lt : rowNdx < e := by omega
    have hrow_len : rowNdx < st.data.length := by omega
    rcases hrow : st.data[rowNdx]? with _ | row
    · rw [List.getElem?_eq_none_iff] at hrow
      exact absurd hrow (by omega)
    · simp only [recycleLoop, hrow] at hok ⊢
      rcases hnode : row.node with _ | nid0
      · -- the row lacks a node: steal path
        simp only [hnode] at hok ⊢
        obtain ⟨hsf1, hsf2, hsf3⟩ := scanFree_spec st.rowsWithNodes s e
          (st.rowsWithNodes.length - f) f (by omega) h4
        generalize hgen : scanFree st.rowsWithNodes s e
            (st.rowsWithNodes.length - f) f = f1 at hsf1 hsf2 hsf3 hok ⊢
        rcases hslot : st.rowsWithNodes[f1]? with _ | oldRow
        · simp only [hslot] at hok
          simp at hok
        · simp only [hslot] at hok ⊢
          have hf1len : f1 < st.rowsWithNodes.length :=
            (List.getElem?_eq_some_iff.mp hslot).1
          have holdmem : oldRow ∈ st.rowsWithNodes := by
            obtain ⟨hh, he2⟩ := List.getElem?_eq_some_iff.mp hslot
            exact he2 ▸ List.getElem_mem hh
          have holdlen : oldRow < st.data.length := hcore.2.1 oldRow holdmem
          have holdout : ¬(s < oldRow ∧ oldRow < e) := hsf3 oldRow hslot
          rcases hold : st.data[oldRow]? with _ | oldRec
          · simp only [hold] at hok
            simp at hok
          · simp only [hold] at hok ⊢
            have hnodeOld : nodeAt st oldRow = oldRec.node := by simp [nodeAt, hold]
            rcases hnd : oldRec.node with _ | nid
            · simp only [hnd] at hok
              simp at hok
            · simp only [hnd] at hok ⊢
              have hnodeRow : nodeAt st rowNdx = none := by simp [nodeAt, hrow, hnode]
              have hrowNotMem : rowNdx ∉ st.rowsWithNodes := by
                intro hm
                have hsm := (hcore.2.2 rowNdx hrow_len).mpr hm
                rw [hnodeRow] at hsm
                simp at hsm
              have hneOR : oldRow ≠ rowNdx := by
                intro hcontra
                rw [hcontra, hnodeRow] at hnodeOld
                rw [hnd] at hnodeOld
                cases hnodeOld
              have hnodidOld : nodeAt st oldRow = some nid := by rw [hnodeOld, hnd]
              set stB : TableState α := { st with
                  data := (st.data.set rowNdx { row with node := some nid }).set
                    oldRow { oldRec with node := none },
                  nodePos := st.nodePos.set nid row.top,
                  rowsWithNodes := st.rowsWithNodes.set f1 rowNdx } with hstB
              have hnodeB : ∀ i, nodeAt stB i
                  = if oldRow = i then none else if rowNdx = i then some nid
                    else nodeAt st i := by
                intro i
                simp only [hstB, nodeAt]
                rw [getElem?_set_set st.data rowNdx oldRow _ _ hrow_len holdlen i]
                by_cases hc1 : oldRow = i
                · simp [hc1]
                · by_cases hc2 : rowNdx = i
                  · simp [hc1, hc2]
                  · simp [hc1, hc2]
              have hmemB : ∀ x, x ∈ stB.rowsWithNodes
                  ↔ ((x ∈ st.rowsWithNodes ∧ x ≠ oldRow) ∨ x = rowNdx) := by
                intro x
                simp only [hstB]
                constructor
                · intro hx
                  by_cases hxa : x = rowNdx
                  · exact Or.inr hxa
                  · exact Or.inl (mem_of_mem_set_of_ne _ _ _ _ _ hcore.1 hslot hx hxa)
                · intro hx
                  rcases hx with ⟨hx1, hx2⟩ | hx1
                  · exact mem_set_of_mem_of_ne _ _ _ _ _ hslot hx1 hx2
                  · exact hx1 ▸ mem_set_self_of_lt _ _ _ hf1len
              have hlenB : stB.data.length = st.data.length := by
                simp [hstB]
              have hrlenB : stB.rowsWithNodes.length = st.rowsWithNodes.length := by
                simp [hstB]
              refine ih stB (rowNdx + 1) (f1 + 1) _ _ (by omega) h2 (by omega)
                (by omega) (by omega) (by omega) ?_ ?_ ?_ ?_ ?_ ?_ ?_ ?_ hok
              · -- PoolCore stB
                refine ⟨?_, ?_, ?_⟩
                · rw [hstB]
                  exact nodup_set_of_not_mem _ _ _ hcore.1 hrowNotMem
                · intro v hv
                  rcases (hmemB v).mp hv with ⟨hv1, _⟩ | hv1
                  · have := hcore.2.1 v hv1
                    omega
                  · omega
                · intro i hi
                  have hi' : i < st.data.length := by omega
                  rw [hnodeB i, hmemB i]
                  by_cases hc1 : oldRow = i
                  · rw [if_pos hc1]
                    simp only [Option.isSome_none, Bool.false_eq_true, false_iff,
                      not_or]
                    exact ⟨fun h => h.2 hc1.symm, fun h => hneOR (hc1.trans h)⟩
                  · by_cases hc2 : rowNdx = i
                    · subst hc2
                      simp [hrow_len]
                      exact hc1
                    · have hc1' : i ≠ oldRow := fun h => hc1 h.symm
                      have hc2' : i ≠ rowNdx := fun h => hc2 h.symm
                      rw [if_neg hc1, if_neg hc2, hcore.2.2 i hi']
                      simp [hc1', hc2']
              · -- NodeInjective stB
                intro i hi j hj hsomeI heq
                have hi' : i < st.data.length := by omega
                have hj' : j < st.data.length := by omega
                rw [hnodeB i] at hsomeI heq
                rw [hnodeB j] at heq
                by_cases hc1 : oldRow = i
                · rw [if_pos hc1] at hsomeI
                  simp at hsomeI
                · rw [if_neg hc1] at hsomeI heq
                  by_cases hc2 : oldRow = j
                  · rw [if_pos hc2] at heq
                    by_cases hc3 : rowNdx = i
                    · rw [if_pos hc3] at heq
                      cases heq
                    · rw [if_neg hc3] at heq
                      rw [heq] at hsomeI
                      simp at hsomeI
                      exact absurd hsomeI hc3
                  · rw [if_neg hc2] at heq
                    by_cases hc3 : rowNdx = i
                    · by_cases hc4 : rowNdx = j
                      · omega
                      · rw [if_pos hc3, if_neg hc4] at heq
                        exact absurd (hinj oldRow holdlen j hj'
                          (by rw [hnodidOld]; rfl) (by rw [hnodidOld]; exact heq)) hc2
                    · rw [if_neg hc3] at hsomeI heq
                      by_cases hc4 : rowNdx = j
                      · rw [if_pos hc4] at heq
                        exact absurd (hinj i hi' oldRow holdlen hsomeI
                          (by rw [hnodidOld]; exact heq)) (fun h => hc1 h.symm)
                      · rw [if_neg hc4] at heq
                        exact hinj i hi' j hj' hsomeI heq
              · -- untouched suffix: slots
                intro j hjge
                rw [hstB]
                show (st.rowsWithNodes.set f1 rowNdx)[j]? = _
                rw [List.getElem?_set_ne (by omega : f1 ≠ j)]
                exact hA j (by omega)
              · -- untouched suffix: nodes of the slots' rows
                intro j v hjge hj0
                by_cases hv1 : v = oldRow
                · subst hv1
                  have h0 : st0.rowsWithNodes[f1]? = some v := by
                    rw [← hA f1 hsf1]
                    exact hslot
                  have : j = f1 := nodup_getElem?_inj _ hnod0 j f1 v hj0 h0
                  omega
                · by_cases hv2 : v = rowNdx
                  · subst hv2
                    have h0 : st.rowsWithNodes[j]? = some v := by
                      rw [hA j (by omega)]
                      exact hj0
                    obtain ⟨hh, he2⟩ := List.getElem?_eq_some_iff.mp h0
                    exact absurd (he2 ▸ List.getElem_mem hh) hrowNotMem
                  · rw [hnodeB v, if_neg (fun h => hv1 h.symm),
                      if_neg (fun h => hv2 h.symm)]
                    exact hN j v (by omega) hj0
              · -- window rows keep their surfaces
                intro i n hi1 hi2 h0
                have hkept0 := hkept i n hi1 hi2 h0
                have hio : oldRow ≠ i := by
                  intro h
                  exact holdout (h ▸ ⟨hi1, hi2⟩)
                have hir : rowNdx ≠ i := by
                  intro h
                  rw [← h, hnodeRow] at hkept0
                  cases hkept0
                rw [hnodeB i, if_neg hio, if_neg hir]
                exact hkept0
              · -- processed rows are assigned
                intro i hi1 hi2
                rw [hnodeB i]
                by_cases hc1 : oldRow = i
                · exact absurd (hc1 ▸ ⟨hi1, by omega⟩) holdout
                · rw [if_neg hc1]
                  by_cases hc2 : rowNdx = i
                  · rw [if_pos hc2]
                    rfl
                  · rw [if_neg hc2]
                    exact hproc i hi1 (by omega)
              · -- update log entries
                intro x hx
                rcases List.mem_append.mp hx with hx | hx
                · obtain ⟨ha, hb, hc⟩ := hupds x hx
                  exact ⟨ha, by omega, hc⟩
                · simp only [List.mem_singleton] at hx
                  subst hx
                  refine ⟨h3, by omega, ?_⟩
                  intro hs
                  rcases h0 : nodeAt st0 rowNdx with _ | n
                  · rfl
                  · exfalso
                    have hk := hkept rowNdx n hs hrow_lt h0
                    rw [hnodeRow] at hk
                    cases hk
              · -- position write entries
                intro w hw
                rcases List.mem_append.mp hw with hw | hw
                · exact hpws w hw
                · simp only [List.mem_singleton] at hw
                  subst hw
                  refine ⟨oldRow, by omega, holdout, ?_⟩
                  have h0 : st0.rowsWithNodes[f1]? = some oldRow := by
                    rw [← hA f1 hsf1]
                    exact hslot
                  have h1' := hN f1 oldRow hsf1 h0
                  rw [← h1', hnodidOld]
      · -- the row already has a node: untouched
        simp only [hnode] at hok ⊢
        refine ih st (rowNdx + 1) f upds pws (by omega) h2 (by omega) h4 hlen hrlen
          hcore hinj hA hN hkept ?_ ?_ hpws hok
        · intro i hi1 hi2
          by_cases h2i : i = rowNdx
          · subst h2i
            simp [nodeAt, hrow, hnode]
          · exact hproc i hi1 (by omega)
        · intro x hx
          obtain ⟨ha, hb, hc⟩ := hupds x hx
          exact ⟨ha, by omega, hc⟩

theorem sortedIndexGo_le (tops : List ℚ) (v : ℚ) :
    ∀ (fuel lo hi : Nat), lo ≤ hi → sortedIndexGo tops v fuel lo hi ≤ hi
  | 0, lo, hi, h => by simpa [sortedIndexGo] using h
  | fuel + 1, lo, hi, h => by
      simp only [sortedIndexGo]
      by_cases hlt : lo < hi
      · rw [if_pos hlt]
        by_cases hcmp : tops.getD ((lo + hi) / 2) 0 < v
        · rw [if_pos hcmp]
          exact sortedIndexGo_le tops v fuel ((lo + hi) / 2 + 1) hi (by omega)
        · rw [if_neg hcmp]
          exact le_trans
            (sortedIndexGo_le tops v fuel lo ((lo + hi) / 2) (by omega)) (by omega)
      · rw [if_neg hlt]
        exact h

theorem sortedIndex_le_length (tops : List ℚ) (v : ℚ) :
    sortedIndex tops v ≤ tops.length :=
  sortedIndexGo_le tops v tops.length 0 tops.length (by omega)

theorem assignedIndices_length {α : Type} (st : TableState α) (hcore : PoolCore st) :
    (assignedIndices st).length = st.rowsWithNodes.length := by
  obtain ⟨hnodup, hbound, hmem⟩ := hcore
  have hperm : (assignedIndices st).Perm st.rowsWithNodes := by
    apply (List.perm_ext_iff_of_nodup ((List.nodup_range _).filter _) hnodup).mpr
    intro a
    simp only [assignedIndices, List.mem_filter, List.mem_range, decide_eq_true_eq]
    constructor
    · intro ha
      exact (hmem a ha.1).mp ha.2
    · intro ha
      exact ⟨hbound a ha, (hmem a (hbound a ha)).mpr ha⟩
  exact hperm.length_eq

theorem mem_assignedIndices {α : Type} (st : TableState α) (i : Nat) :
    i ∈ assignedIndices st ↔ i < st.data.length ∧ (nodeAt st i).isSome := by
  simp [assignedIndices, List.mem_filter, List.mem_range]

/-- A freshly constructed instance satisfies the pool invariant. -/
theorem construct_poolInv {α : Type} (cfg : Config α) (pl : List α) :
    PoolInv cfg (construct cfg pl).1 := by
  have hlen : ((construct cfg pl).1).data.length = pl.length := by
    rw [construct_eq]
    show (buildData _ _ _ _).length = _
    rw [buildData_length, calculateHeights_fst_length]
    omega
  have hnode : ∀ i, i < pl.length →
      nodeAt (construct cfg pl).1 i
        = if i < min cfg.availableNodes pl.length then some i else none := by
    intro i hi
    have hget := buildData_getElem? pl (calculateHeights cfg.heightFn pl 0).1
      (min cfg.availableNodes pl.length) 0 i hi
      (by rw [calculateHeights_fst_length]; exact hi)
    rw [construct_eq]
    show ((buildData _ _ _ _)[i]?).bind RowData.node = _
    rw [hget]
    simp only [Option.bind_some, Nat.zero_add]
    rfl
  have hnone : ∀ i, pl.length ≤ i → nodeAt (construct cfg pl).1 i = none := by
    intro i hi
    show ((construct cfg pl).1.data[i]?).bind RowData.node = none
    rw [List.getElem?_eq_none (by omega)]
    rfl
  have hrwn : ((construct cfg pl).1).rowsWithNodes
      = List.range (min cfg.availableNodes pl.length) := by
    rw [construct_eq]
  refine ⟨⟨?_, ?_, ?_⟩, ?_, ?_⟩
  · rw [hrwn]
    exact List.nodup_range _
  · intro v hv
    rw [hrwn] at hv
    rw [hlen]
    have := List.mem_range.mp hv
    omega
  · intro i hi
    rw [hlen] at hi
    rw [hnode i hi, hrwn, List.mem_range]
    by_cases hik : i < min cfg.availableNodes pl.length
    · simp [hik]
    · simp [hik]
  · rw [hrwn, List.length_range, hlen]
  · intro i hi j hj hsome heq
    rw [hlen] at hi hj
    rw [hnode i hi] at hsome heq
    rw [hnode j hj] at heq
    by_cases hik : i < min cfg.availableNodes pl.length
    · rw [if_pos hik] at heq
      by_cases hjk : j < min cfg.availableNodes pl.length
      · rw [if_pos hjk] at heq
        exact Option.some_injective _ heq
      · rw [if_neg hjk] at heq
        cases heq
    · rw [if_neg hik] at hsome
      simp at hsome

/-! Closed-form evaluations of the concrete fixtures (used by scenario
checks and counterexamples).  Each is the result of running the embedded
code on the given input, written out as a literal. -/

theorem stPool1_eval :
    stPool1 =
      { data := [⟨(), 0, some 0⟩, ⟨(), 10, none⟩, ⟨(), 20, none⟩],
        rowsWithNodes := [0], yPosition := 0, totalHeight := 30, bottomTop := 30,
        nodePos := [0], lastMidNdx := none, isUpdating := false,
        childCount := 2 } := by
  simp [stPool1, construct, reset, clearChildren, initState, cfgPool1, rows3,
    calculateHeights, buildData]
  norm_num
  decide

theorem stPool2_eval :
    stPool2 =
      { data := [⟨(), 0, some 0⟩, ⟨(), 10, some 1⟩, ⟨(), 20, none⟩, ⟨(), 30, none⟩,
                 ⟨(), 40, none⟩, ⟨(), 50, none⟩],
        rowsWithNodes := [0, 1], yPosition := 0, totalHeight := 60, bottomTop := 60,
        nodePos := [0, 10], lastMidNdx := none, isUpdating := false,
        childCount := 3 } := by
  simp [stPool2, construct, reset, clearChildren, initState, cfgPool2, rows6,
    calculateHeights, buildData]
  norm_num
  decide

theorem stPool4_eval :
    stPool4 =
      { data := [⟨(), 0, some 0⟩, ⟨(), 10, some 1⟩, ⟨(), 20, some 2⟩, ⟨(), 30, some 3⟩,
                 ⟨(), 40, none⟩, ⟨(), 50, none⟩],
        rowsWithNodes := [0, 1, 2, 3], yPosition := 0, totalHeight := 60,
        bottomTop := 60, nodePos := [0, 10, 20, 30], lastMidNdx := none,
        isUpdating := false, childCount := 5 } := by
  simp [stPool4, construct, reset, clearChildren, initState, cfgPool4, rows6,
    calculateHeights, buildData]
  norm_num
  decide

theorem pass_cfgPool4_eval :
    updateVisibleRows cfgPool4 0 10 stPool4 =
      ⟨{ data := [⟨(), 0, some 0⟩, ⟨(), 10, some 1⟩, ⟨(), 20, some 2⟩, ⟨(), 30, some 3⟩,
                  ⟨(), 40, none⟩, ⟨(), 50, none⟩],
         rowsWithNodes := [0, 1, 2, 3], yPosition := 0, totalHeight := 60,
         bottomTop := 60, nodePos := [0, 10, 20, 30], lastMidNdx := some 1,
         isUpdating := false, childCount := 5 }, [], [], 0, false⟩ := by
  rw [stPool4_eval]
  simp [updateVisibleRows, locateWindow, sortedIndex, sortedIndexGo, cfgPool4]
  norm_num
  decide

theorem pass_cfgPool1_eval :
    updateVisibleRows cfgPool1 10 10 stPool1 =
      ⟨{ data := [⟨(), 0, none⟩, ⟨(), 10, some 0⟩, ⟨(), 20, none⟩],
         rowsWithNodes := [1], yPosition := 0, totalHeight := 30, bottomTop := 30,
         nodePos := [10], lastMidNdx := some 2, isUpdating := true,
         childCount := 2 },
       [(1, some 0)], [(0, 10)], 1, true⟩ := by
  rw [stPool1_eval]
  simp [updateVisibleRows, locateWindow, sortedIndex, sortedIndexGo, cfgPool1]
  norm_num
  decide

theorem passA_cfgPool2_eval :
    updateVisibleRows cfgPool2 10 10 stPool2 =
      ⟨{ data := [⟨(), 0, none⟩, ⟨(), 10, some 1⟩, ⟨(), 20, some 0⟩, ⟨(), 30, none⟩,
                  ⟨(), 40, none⟩, ⟨(), 50, none⟩],
         rowsWithNodes := [2, 1], yPosition := 0, totalHeight := 60, bottomTop := 60,
         nodePos := [20, 10], lastMidNdx := some 2, isUpdating := false,
         childCount := 3 },
       [(2, some 0)], [(0, 20)], 1, false⟩ := by
  rw [stPool2_eval]
  simp [updateVisibleRows, locateWindow, sortedIndex, sortedIndexGo, cfgPool2]
  norm_num
  decide

theorem passB_cfgPool2_eval :
    updateVisibleRows cfgPool2 20 10 (updateVisibleRows cfgPool2 10 10 stPool2).state =
      ⟨{ data := [⟨(), 0, none⟩, ⟨(), 10, some 1⟩, ⟨(), 20, none⟩, ⟨(), 30, some 0⟩,
                  ⟨(), 40, none⟩, ⟨(), 50, none⟩],
         rowsWithNodes := [3, 1], yPosition := 0, totalHeight := 60, bottomTop := 60,
         nodePos := [30, 10], lastMidNdx := some 3, isUpdating := false,
         childCount := 3 },
       [(3, some 0)], [(0, 30)], 1, false⟩ := by
  rw [passA_cfgPool2_eval]
  simp [updateVisibleRows, locateWindow, sortedIndex, sortedIndexGo, cfgPool2]
  norm_num
  decide

theorem passC_cfgPool2_eval :
    updateVisibleRows cfgPool2 20 10 stPool2 =
      ⟨{ data := [⟨(), 0, none⟩, ⟨(), 10, none⟩, ⟨(), 20, some 0⟩, ⟨(), 30, some 1⟩,
                  ⟨(), 40, none⟩, ⟨(), 50, none⟩],
         rowsWithNodes := [2, 3], yPosition := 0, totalHeight := 60, bottomTop := 60,
         nodePos := [20, 30], lastMidNdx := some 3, isUpdating := false,
         childCount := 3 },
       [(2, some 0), (3, some 1)], [(0, 20), (1, 30)], 2, false⟩ := by
  rw [stPool2_eval]
  simp [updateVisibleRows, locateWindow, sortedIndex, sortedIndexGo, cfgPool2]
  norm_num
  decide

theorem passD_cfgPool2_eval :
    updateVisibleRows cfgPool2 40 10 (updateVisibleRows cfgPool2 20 10 stPool2).state =
      ⟨{ data := [⟨(), 0, none⟩, ⟨(), 10, none⟩, ⟨(), 20, none⟩, ⟨(), 30, none⟩,
                  ⟨(), 40, some 0⟩, ⟨(), 50, some 1⟩],
         rowsWithNodes := [4, 5], yPosition := 0, totalHeight := 60, bottomTop := 60,
         nodePos := [40, 50], lastMidNdx := some 5, isUpdating := false,
         childCount := 3 },
       [(4, some 0), (5, some 1)], [(0, 40), (1, 50)], 2, false⟩ := by
  rw [passC_cfgPool2_eval]
  simp [updateVisibleRows, locateWindow, sortedIndex, sortedIndexGo, cfgPool2]
  norm_num
  decide

theorem passDP_cfgPool2_eval :
    updateVisibleRowsP cfgPool2 40 10 (updateVisibleRows cfgPool2 20 10 stPool2).state
        (updateVisibleRows cfgPool2 20 10 stPool2).cursor =
      ⟨{ data := [⟨(), 0, none⟩, ⟨(), 10, none⟩, ⟨(), 20, some 0⟩, ⟨(), 30, some 1⟩,
                  ⟨(), 40, none⟩, ⟨(), 50, none⟩],
         rowsWithNodes := [2, 3], yPosition := 0, totalHeight := 60, bottomTop := 60,
         nodePos := [20, 30], lastMidNdx := some 5, isUpdating := true,
         childCount := 3 },
       [], [], 2, true⟩ := by
  rw [passC_cfgPool2_eval]
  simp [updateVisibleRowsP, locateWindow, sortedIndex, sortedIndexGo, cfgPool2]
  norm_num
  decide

/-- Rewriting `nodeAt` through updates of the scroll-bookkeeping fields,
which do not touch `data`. -/
theorem nodeAt_guard_mid {α : Type} (st : TableState α) (o : Option Nat) (b : Bool)
    (i : Nat) : nodeAt { st with lastMidNdx := o, isUpdating := b } i = nodeAt st i :=
  rfl

/-- Claim C1 fails as stated on the code: with pool budget 4, six rows of
height 10 and a first scroll notification resolving to `midNdx = 1` (window
`[0, 3)`), the pass is not skipped and completes, yet afterwards the set of
rows with a surface is `{0, 1, 2, 3}`: its size is 4, not
`min (fillEnd - fillStart) poolSize = 3`, and row 3 lies outside
`[fillStart, fillEnd) = [0, 3)`.  The code never releases surplus surfaces
when the clipped window is smaller than the pool. -/
theorem claim1_counterexample :
    locateWindow cfgPool4 0 10 (stPool4.data.map RowData.top) = (1, 0, 3)
    ∧ stPool4.lastMidNdx ≠ some 1
    ∧ (updateVisibleRows cfgPool4 0 10 stPool4).err = false
    ∧ assignedIndices (updateVisibleRows cfgPool4 0 10 stPool4).state = [0, 1, 2, 3]
    ∧ (assignedIndices (updateVisibleRows cfgPool4 0 10 stPool4).state).length
        ≠ min (3 - 0) cfgPool4.availableNodes
    ∧ ¬ (∀ i ∈ assignedIndices (updateVisibleRows cfgPool4 0 10 stPool4).state,
        i < 3) := by
  refine ⟨?_, ?_, ?_, ?_, ?_, ?_⟩
  · rw [stPool4_eval]
    simp [locateWindow, sortedIndex, sortedIndexGo, cfgPool4]
    norm_num
  · rw [stPool4_eval]
    decide
  · rw [pass_cfgPool4_eval]
  · rw [pass_cfgPool4_eval]
    decide
  · rw [pass_cfgPool4_eval]
    decide
  · rw [pass_cfgPool4_eval]
    decide

/-- Claim C1 (amended): for every recycle pass that is not skipped by the
no-change fast path and that completes without a thrown error, starting from
a state satisfying the pool invariant, afterwards the set of row indices
with a non-null assigned surface has size `min poolSize rowCount` (not
`min (fillEnd - fillStart) poolSize`), contains every row index strictly
inside `(fillStart, fillEnd)`, and no surface is referenced by two rows
simultaneously. -/
theorem claim1_amended {α : Type} (cfg : Config α) (sT cH : ℚ) (st : TableState α)
    (m fs fe : Nat)
    (hw : locateWindow cfg sT cH (st.data.map RowData.top) = (m, fs, fe))
    (hpool : PoolInv cfg st)
    (hguard : st.isUpdating = false)
    (hskip : st.lastMidNdx ≠ some m)
    (hok : (updateVisibleRows cfg sT cH st).err = false) :
    (assignedIndices (updateVisibleRows cfg sT cH st).state).length
        = min cfg.availableNodes st.data.length
    ∧ NodeInjective (updateVisibleRows cfg sT cH st).state
    ∧ (∀ i, fs < i → i < fe →
        i ∈ assignedIndices (updateVisibleRows cfg sT cH st).state) := by
  obtain ⟨hcore, hsize, hinj⟩ := hpool
  have hw0 := hw
  simp only [locateWindow, Prod.mk.injEq] at hw
  obtain ⟨hm, hfs, hfe⟩ := hw
  have hmle : m ≤ st.data.length := by
    have hx := sortedIndex_le_length (st.data.map RowData.top) ((sT + (sT + cH)) / 2)
    rw [hm] at hx
    simpa using hx
  have hmaplen : (st.data.map RowData.top).length = st.data.length := by simp
  have hfsfe : fs ≤ fe := by omega
  have hfele : fe ≤ st.data.length := by omega
  simp only [updateVisibleRows, hguard, Bool.false_eq_true, if_false, hw0] at hok ⊢
  rw [if_neg hskip] at hok ⊢
  have H := recycleLoop_master fs fe
    { st with lastMidNdx := some m, isUpdating := true } hcore.1 (fe - fs)
    { st with lastMidNdx := some m, isUpdating := true } fs 0 [] []
    (by omega) hfele le_rfl (Nat.zero_le _) rfl rfl hcore hinj
    (fun j hj => rfl) (fun j v hj hv => rfl) (fun i n h1 h2 h3 => h3)
    (fun i h1 h2 => absurd h1 (by omega)) (by simp) (by simp) hok
  obtain ⟨H1, H2, H3, H4, H5, H6, H7, H8⟩ := H
  refine ⟨?_, H4, ?_⟩
  · rw [assignedIndices_length _ H3, H2]
    exact hsize
  · intro i h1 h2
    rw [mem_assignedIndices]
    refine ⟨?_, H6 i h1 h2⟩
    rw [H1]
    exact lt_of_lt_of_le h2 hfele

/-- Witness for the amended C1 at a concrete input. -/
theorem claim1_amended_witness :
    (assignedIndices (updateVisibleRows cfgPool2 0 0 stEmpty).state).length
        = min cfgPool2.availableNodes stEmpty.data.length
    ∧ NodeInjective (updateVisibleRows cfgPool2 0 0 stEmpty).state
    ∧ (∀ i, 0 < i → i < 0 →
        i ∈ assignedIndices (updateVisibleRows cfgPool2 0 0 stEmpty).state) :=
  claim1_amended cfgPool2 0 0 stEmpty 0 0 0 (by decide)
    (by unfold PoolInv PoolCore NodeInjective; decide) (by decide) (by decide)
    (by decide)

/-- Claim C2: the spec requires that when `fillEnd - fillStart` exceeds the
surface budget the pass is silently capped at the budget with no runtime
error, and the spec's design notes state this is the intent while the
source's behavior there is an unintended out-of-bounds access.  The code
violates it: with budget 1 and 3 rows, a notification resolving to
`midNdx = 2` gives the window `[1, 3)` of size 2 > 1; the free-surface scan
runs its cursor to 1 = `rowsWithNodes.length`, the slot read there is
`undefined` (`none`), and the pass aborts with a thrown `TypeError`
(`err = true`) after serving only one row — instead of capping silently. -/
theorem claim2_budget_overflow :
    locateWindow cfgPool1 10 10 (stPool1.data.map RowData.top) = (2, 1, 3)
    ∧ cfgPool1.availableNodes < 3 - 1
    ∧ (updateVisibleRows cfgPool1 10 10 stPool1).err = true
    ∧ (updateVisibleRows cfgPool1 10 10 stPool1).cursor
        = stPool1.rowsWithNodes.length
    ∧ (updateVisibleRows cfgPool1 10 10 stPool1).state.rowsWithNodes[
        (updateVisibleRows cfgPool1 10 10 stPool1).cursor]? = none
    ∧ (updateVisibleRows cfgPool1 10 10 stPool1).updates = [(1, some 0)] := by
  refine ⟨?_, by decide, ?_, ?_, ?_, ?_⟩
  · rw [stPool1_eval]
    simp [locateWindow, sortedIndex, sortedIndexGo, cfgPool1]
    norm_num
  · rw [pass_cfgPool1_eval]
  · rw [pass_cfgPool1_eval, stPool1_eval]
    decide
  · rw [pass_cfgPool1_eval]
    decide
  · rw [pass_cfgPool1_eval]

/-- Claim C3 fails as stated on the code: after a first pass whose scan
cursor ended at 2, the source's second pass succeeds and steals slots 0 and
1 again (its `freeSearchNdx` is a local variable restarted at 0), whereas
the spec-modelled Surface Pool Manager with a persistent cursor
(`updateVisibleRowsP`, resumed at the carried cursor 2) aborts by reading
past the Assignment Index.  The code therefore does not scan from a cursor
that persists across recycle calls. -/
theorem claim3_counterexample :
    (updateVisibleRows cfgPool2 20 10 stPool2).cursor = 2
    ∧ (updateVisibleRows cfgPool2 40 10
        (updateVisibleRows cfgPool2 20 10 stPool2).state).err = false
    ∧ (updateVisibleRows cfgPool2 40 10
        (updateVisibleRows cfgPool2 20 10 stPool2).state).updates
        = [(4, some 0), (5, some 1)]
    ∧ (updateVisibleRowsP cfgPool2 40 10
        (updateVisibleRows cfgPool2 20 10 stPool2).state
        (updateVisibleRows cfgPool2 20 10 stPool2).cursor).err = true := by
  refine ⟨?_, ?_, ?_, ?_⟩
  · rw [passC_cfgPool2_eval]
  · rw [passD_cfgPool2_eval]
  · rw [passD_cfgPool2_eval]
  · rw [passDP_cfgPool2_eval]

/-- Claim C3 (amended): the free-surface scan cursor is a pass-local
variable initialised to 0 at the start of every recycle call — every pass of
the source behaves exactly like the spec's persistent-cursor Surface Pool
Manager would if its cursor were reset to 0 before each call; the cursor
persists only within a single pass. -/
theorem claim3_amended {α : Type} (cfg : Config α) (sT cH : ℚ)
    (st : TableState α) :
    updateVisibleRows cfg sT cH st = updateVisibleRowsP cfg sT cH st 0 := rfl

/-- Claim C4 fails as stated on the code: starting from rows `{1, 2}`
assigned (row 2 at slot 0 of the Assignment Index), a pass with window
`[2, 4)` steals row 2's surface — row 2 equals `fillStart`, lies inside the
half-open window `[fillStart, fillEnd)`, and held a surface when the pass
began, yet loses it, because the scan's strict comparison
`rowsWithNodes[f] > fillStart` treats the row at exactly `fillStart` as
free. -/
theorem claim4_counterexample :
    locateWindow cfgPool2 20 10
        ((updateVisibleRows cfgPool2 10 10 stPool2).state.data.map RowData.top)
        = (3, 2, 4)
    ∧ nodeAt (updateVisibleRows cfgPool2 10 10 stPool2).state 2 = some 0
    ∧ (updateVisibleRows cfgPool2 20 10
        (updateVisibleRows cfgPool2 10 10 stPool2).state).err = false
    ∧ (updateVisibleRows cfgPool2 20 10
        (updateVisibleRows cfgPool2 10 10 stPool2).state).updates = [(3, some 0)]
    ∧ nodeAt (updateVisibleRows cfgPool2 20 10
        (updateVisibleRows cfgPool2 10 10 stPool2).state).state 2 = none := by
  refine ⟨?_, ?_, ?_, ?_, ?_⟩
  · rw [passA_cfgPool2_eval]
    simp [locateWindow, sortedIndex, sortedIndexGo, cfgPool2]
    norm_num
  · rw [passA_cfgPool2_eval]
    decide
  · rw [passB_cfgPool2_eval]
  · rw [passB_cfgPool2_eval]
  · rw [passB_cfgPool2_eval]
    decide

/-- Claim C4 (amended): during every recycle pass that completes without a
thrown error, each row strictly inside `(fillStart, fillEnd)` that already
holds a surface receives no update callback, no position write on its
surface, and keeps its surface; the free-surface scan only steals surfaces
from rows outside the open interval `(fillStart, fillEnd)` — that is, rows
outside the window or exactly at `fillStart`. -/
theorem claim4_amended {α : Type} (cfg : Config α) (sT cH : ℚ) (st : TableState α)
    (m fs fe : Nat)
    (hw : locateWindow cfg sT cH (st.data.map RowData.top) = (m, fs, fe))
    (hpool : PoolInv cfg st)
    (hok : (updateVisibleRows cfg sT cH st).err = false) :
    (∀ i n, fs < i → i < fe → nodeAt st i = some n →
      nodeAt (updateVisibleRows cfg sT cH st).state i = some n
      ∧ (∀ x ∈ (updateVisibleRows cfg sT cH st).updates, x.1 ≠ i)
      ∧ (∀ w ∈ (updateVisibleRows cfg sT cH st).posWrites, w.1 ≠ n))
    ∧ (∀ j, j < st.data.length → (nodeAt st j).isSome →
        nodeAt (updateVisibleRows cfg sT cH st).state j = none →
        j ≤ fs ∨ fe ≤ j) := by
  obtain ⟨hcore, hsize, hinj⟩ := hpool
  by_cases hguard : st.isUpdating = true
  · simp only [updateVisibleRows, hguard, if_true]
    constructor
    · intro i n h1 h2 h3
      exact ⟨h3, by simp, by simp⟩
    · intro j hj hsome hnone
      rw [hnone] at hsome
      simp at hsome
  · have hguard' : st.isUpdating = false := by simpa using hguard
    have hw0 := hw
    simp only [locateWindow, Prod.mk.injEq] at hw
    obtain ⟨hm, hfs, hfe⟩ := hw
    have hmle : m ≤ st.data.length := by
      have hx := sortedIndex_le_length (st.data.map RowData.top) ((sT + (sT + cH)) / 2)
      rw [hm] at hx
      simpa using hx
    have hmaplen : (st.data.map RowData.top).length = st.data.length := by simp
    have hfsfe : fs ≤ fe := by omega
    have hfele : fe ≤ st.data.length := by omega
    by_cases hskip : st.lastMidNdx = some m
    · simp only [updateVisibleRows, hguard', Bool.false_eq_true, if_false, hw0] at hok ⊢
      rw [if_pos hskip] at hok ⊢
      constructor
      · intro i n h1 h2 h3
        refine ⟨?_, by simp, by simp⟩
        rw [nodeAt_guard_mid]
        exact h3
      · intro j hj hsome hnone
        rw [nodeAt_guard_mid] at hnone
        rw [hnone] at hsome
        simp at hsome
    · simp only [updateVisibleRows, hguard', Bool.false_eq_true, if_false, hw0] at hok ⊢
      rw [if_neg hskip] at hok ⊢
      have H := recycleLoop_master fs fe
        { st with lastMidNdx := some m, isUpdating := true } hcore.1 (fe - fs)
        { st with lastMidNdx := some m, isUpdating := true } fs 0 [] []
        (by omega) hfele le_rfl (Nat.zero_le _) rfl rfl hcore hinj
        (fun j hj => rfl) (fun j v hj hv => rfl) (fun i n h1 h2 h3 => h3)
        (fun i h1 h2 => absurd h1 (by omega)) (by simp) (by simp) hok
      obtain ⟨H1, H2, H3, H4, H5, H6, H7, H8⟩ := H
      simp only [nodeAt_guard_mid] at H5 H7 H8
      constructor
      · intro i n h1 h2 h3
        refine ⟨H5 i n h1 h2 h3, ?_, ?_⟩
        · intro x hx hxi
          obtain ⟨hx1, hx2, hx3⟩ := H7 x hx
          rw [hxi] at hx3
          have hx4 := hx3 h1
          rw [h3] at hx4
          cases hx4
        · intro w hw2 hwn
          obtain ⟨v, hv1, hv2, hv3⟩ := H8 w hw2
          rw [hwn] at hv3
          have hveq : v = i := hinj v hv1 i (lt_of_lt_of_le h2 hfele)
            (by rw [hv3]; rfl) (by rw [hv3, h3])
          exact hv2 (hveq ▸ ⟨h1, h2⟩)
      · intro j hj hsome hnone
        by_cases hin : fs < j ∧ j < fe
        · exfalso
          obtain ⟨n, hn⟩ := Option.isSome_iff_exists.mp hsome
          have hk := H5 j n hin.1 hin.2 hn
          rw [hk] at hnone
          cases hnone
        · omega

/-- Witness for the amended C4 at a concrete input. -/
theorem claim4_amended_witness :
    (∀ i n, 0 < i → i < 0 → nodeAt stEmpty i = some n →
      nodeAt (updateVisibleRows cfgPool2 0 0 stEmpty).state i = some n
      ∧ (∀ x ∈ (updateVisibleRows cfgPool2 0 0 stEmpty).updates, x.1 ≠ i)
      ∧ (∀ w ∈ (updateVisibleRows cfgPool2 0 0 stEmpty).posWrites, w.1 ≠ n))
    ∧ (∀ j, j < stEmpty.data.length → (nodeAt stEmpty j).isSome →
        nodeAt (updateVisibleRows cfgPool2 0 0 stEmpty).state j = none →
        j ≤ 0 ∨ 0 ≤ j) :=
  claim4_amended cfgPool2 0 0 stEmpty 0 0 0 (by decide)
    (by unfold PoolInv PoolCore NodeInjective; decide) (by decide)

end ScrollableTable
